import Mathlib

/-!
# Verification of the F1 driver-performance Metric Engine

A shallow embedding of `src/performance_metrics.py`
(`DriverPerformanceAnalyzer`) and proofs of the specified properties.

Modelling conventions:
* A pandas `DataFrame` of telemetry is modelled columnar, as lists of
  rationals (floats are modelled exactly by `ℚ`); the optional channels
  `SteeringAngle`, `GforceLat`, `GforceLong` are `Option (List ℚ)`
  (`none` = column absent).
* The NaN sentinel is modelled by `Option`: a metric returning `none`
  corresponds to the Python code returning `float('nan')`.
* Row-wise `DataFrame` filtering is modelled by zipping the relevant
  columns and filtering the zipped list, as pandas does row-wise.
* `np.std` / Pearson correlation take a real square root, so those two
  metrics land in `Option ℝ`; everything else stays in `ℚ`.
-/

namespace F1Metrics

/-- A telemetry table: the columns of the `DataFrame` handed to
`DriverPerformanceAnalyzer.__init__`.  Required channels are plain
lists; the optional channels are `Option` (absent column = `none`). -/
structure Telemetry where
  time : List ℚ := []
  distance : List ℚ := []
  speed : List ℚ := []
  throttle : List ℚ := []
  brake : List ℚ := []
  rpm : List ℚ := []
  nGear : List ℚ := []
  drs : List ℚ := []
  steeringAngle : Option (List ℚ) := none
  gforceLat : Option (List ℚ) := none
  gforceLong : Option (List ℚ) := none
  deriving Repr

/-- The analyzer object: `self.telemetry` plus the optional `self.laps`
`DataFrame`.  Of the laps frame the engine only ever uses iteration
(`for _ in self.laps`), which in pandas iterates the column labels, so
the laps frame is modelled by its list of column labels. -/
structure Analyzer where
  telemetry : Telemetry
  laps : Option (List String) := none

/-- pandas `Series.max()`: `none` on an empty series. -/
def seriesMax : List ℚ → Option ℚ
  | [] => none
  | x :: xs => some (xs.foldl max x)

/-- pandas `Series.min()`: `none` on an empty series. -/
def seriesMin : List ℚ → Option ℚ
  | [] => none
  | x :: xs => some (xs.foldl min x)

/-- `np.mean` of a list of numbers: NaN (`none`) on an empty list. -/
def npMean : List ℚ → Option ℚ
  | [] => none
  | x :: xs => some ((x :: xs).sum / (x :: xs).length)

/-- Consecutive differences `np.diff` / `Series.diff` (pandas drops the
leading NaN when the differences are subsequently summed or averaged):
element `i` is `xs[i+1] - xs[i]`. -/
def npDiff (xs : List ℚ) : List ℚ :=
  List.zipWith (fun a b => b - a) xs xs.tail

/-- The tail-recursive scan of `braking_zones`: `bs` is the remaining
suffix of the thresholded brake channel, `i` the index of its first
element in the whole channel, `st` the `in_zone`/`start` loop state
(`some s` = currently inside a zone opened at index `s`). -/
def zonesFrom : Option ℕ → ℕ → List Bool → List (ℕ × ℕ)
  | none, _, [] => []
  | some s, i, [] => [(s, i - 1)]
  | none, i, b :: bs => if b then zonesFrom (some i) (i + 1) bs else zonesFrom none (i + 1) bs
  | some s, i, b :: bs =>
      if b then zonesFrom (some s) (i + 1) bs
      else (s, i - 1) :: zonesFrom none (i + 1) bs

/-- `DriverPerformanceAnalyzer.braking_zones`: list of `(start, end)`
index pairs (inclusive) of the maximal runs where `Brake > threshold`. -/
def braking_zones (t : Telemetry) (threshold : ℚ := 10) : List (ℕ × ℕ) :=
  zonesFrom none 0 (t.brake.map (fun x => decide (x > threshold)))

/-- Index `j` is covered by one of the zones. -/
def covers (zs : List (ℕ × ℕ)) (j : ℕ) : Prop :=
  ∃ z ∈ zs, z.1 ≤ j ∧ j ≤ z.2

instance (zs : List (ℕ × ℕ)) (j : ℕ) : Decidable (covers zs j) := by
  unfold covers; infer_instance

/-- `DriverPerformanceAnalyzer.brake_application_points`: for each apex,
`apex - Distance` of the last row with `Distance < apex` and
`Brake > 10`; NaN (`none`) when no such row exists. -/
def brake_application_points (t : Telemetry) (apex_distances : List ℚ) : List (Option ℚ) :=
  apex_distances.map (fun apex =>
    match ((t.distance.zip t.brake).filter
        (fun p => decide (p.1 < apex) && decide (p.2 > 10))).getLast? with
    | some p => some (apex - p.1)
    | none => none)

/-- `DriverPerformanceAnalyzer.max_brake_pressure_per_zone`: the max of
`Brake` over `iloc[start:end+1]` for each braking zone. -/
def max_brake_pressure_per_zone (t : Telemetry) : List (Option ℚ) :=
  (braking_zones t).map (fun z => seriesMax ((t.brake.drop z.1).take (z.2 + 1 - z.1)))

/-- `np.mean` over a list that may contain NaN (`none`): NaN when empty
or when any element is NaN. -/
def npMeanOpt (xs : List (Option ℚ)) : Option ℚ :=
  if xs = [] ∨ none ∈ xs then none
  else npMean xs.reduceOption

/-- `np.std` (population) over values that may be NaN: NaN on an empty
list or when any value is NaN, else the square root of the mean squared
deviation.  The variance is rational; only the final square root needs
`ℝ`. -/
noncomputable def npStd (xs : List (Option ℚ)) : Option ℝ :=
  if xs = [] ∨ none ∈ xs then none
  else
    let vs := xs.reduceOption
    let m : ℚ := vs.sum / vs.length
    some (Real.sqrt (((vs.map (fun x => (x - m) ^ 2)).sum / vs.length : ℚ) : ℝ))

/-- `DriverPerformanceAnalyzer.brake_consistency`: NaN when `self.laps`
is `None`; otherwise `np.std([np.mean(m) for m in max_pressures])` where
`max_pressures` recomputes `max_brake_pressure_per_zone()` of the *same*
telemetry once per iteration of `self.laps` (pandas iterates the column
labels of the laps frame). -/
noncomputable def brake_consistency (a : Analyzer) : Option ℝ :=
  match a.laps with
  | none => none
  | some lapCols =>
      let maxPressures := lapCols.map (fun _ => max_brake_pressure_per_zone a.telemetry)
      npStd (maxPressures.map npMeanOpt)

/-- pandas `Series.corr` (Pearson).  The centered second moments are
rational, so the zero-variance test (pandas returns NaN there, also
covering fewer than 2 samples) is decided in `ℚ`; only the final square
root needs `ℝ`. -/
noncomputable def seriesCorr (xs ys : List ℚ) : Option ℝ :=
  let n := min xs.length ys.length
  let x := xs.take n
  let y := ys.take n
  let mx : ℚ := x.sum / n
  let my : ℚ := y.sum / n
  let sxx : ℚ := (x.map (fun a => (a - mx) ^ 2)).sum
  let syy : ℚ := (y.map (fun a => (a - my) ^ 2)).sum
  let sxy : ℚ := (List.zipWith (fun a b => (a - mx) * (b - my)) x y).sum
  if sxx = 0 ∨ syy = 0 then none
  else some ((sxy : ℝ) / Real.sqrt ((sxx * syy : ℚ) : ℝ))

/-- `DriverPerformanceAnalyzer.trail_braking_profile`: correlation of
`Brake` and `SteeringAngle` when the latter column exists, NaN
otherwise. -/
noncomputable def trail_braking_profile (t : Telemetry) : Option ℝ :=
  match t.steeringAngle with
  | some s => seriesCorr t.brake s
  | none => none

/-- `DriverPerformanceAnalyzer.throttle_pickup_after_apex`: for each
apex, `Distance - apex` of the first row with `Distance > apex` and
`Throttle > 10`; NaN when no such row exists. -/
def throttle_pickup_after_apex (t : Telemetry) (apex_distances : List ℚ) : List (Option ℚ) :=
  apex_distances.map (fun apex =>
    match ((t.distance.zip t.throttle).filter
        (fun p => decide (p.1 > apex) && decide (p.2 > 10))).head? with
    | some p => some (p.1 - apex)
    | none => none)

/-- `DriverPerformanceAnalyzer.full_throttle_percentage`:
`(Throttle > 95).mean() * 100`; the boolean mean of an empty column is
NaN in pandas. -/
def full_throttle_percentage (t : Telemetry) : Option ℚ :=
  match t.throttle with
  | [] => none
  | x :: xs =>
      some (((x :: xs).countP (fun a => decide (a > 95)) : ℚ) / (x :: xs).length * 100)

/-- `DriverPerformanceAnalyzer.throttle_smoothness`:
`np.abs(np.diff(Throttle)).mean()`; the mean of the empty diff array
(fewer than 2 samples) is NaN. -/
def throttle_smoothness (t : Telemetry) : Option ℚ :=
  npMean ((npDiff t.throttle).map (fun d => |d|))

/-- `DriverPerformanceAnalyzer.coasting_time_percentage`: fraction of
samples with `Throttle < 5` and `Brake < 5`, times 100; NaN on an empty
table. -/
def coasting_time_percentage (t : Telemetry) : Option ℚ :=
  match t.throttle.zip t.brake with
  | [] => none
  | p :: ps =>
      some (((p :: ps).countP (fun q => decide (q.1 < 5) && decide (q.2 < 5)) : ℚ) /
        (p :: ps).length * 100)

/-- `DriverPerformanceAnalyzer.min_speed_per_corner`: for each apex, the
min of `Speed` over rows with `apex - window < Distance < apex + window`
(pandas `.min()` of an empty selection is NaN). -/
def min_speed_per_corner (t : Telemetry) (apex_distances : List ℚ) (window : ℚ := 10) :
    List (Option ℚ) :=
  apex_distances.map (fun apex =>
    seriesMin (((t.distance.zip t.speed).filter
      (fun p => decide (p.1 > apex - window) && decide (p.1 < apex + window))).map Prod.snd))

/-- The `argsort()[:1]` kernel of the corner-speed lookups: running
best index `bi` with best value `bv`, scanning the rest of the column.
numpy argsort's order among *equal* keys is unspecified; this embedding
keeps the earliest minimizer, which agrees with the code whenever the
minimizer is unique (the only case the spec constrains). -/
def argminAbsAux : List ℚ → ℚ → ℕ → ℕ → ℚ → ℕ
  | [], _, _, bi, _ => bi
  | x :: rest, tg, i, bi, bv =>
      if |x - tg| < bv then argminAbsAux rest tg (i + 1) i |x - tg|
      else argminAbsAux rest tg (i + 1) bi bv

/-- Index of the row minimizing `|Distance - tg|` (`none` on an empty
table, where the Python code would raise on `.values[0]`). -/
def argminAbsIdx (xs : List ℚ) (tg : ℚ) : Option ℕ :=
  match xs with
  | [] => none
  | x :: rest => some (argminAbsAux rest tg 1 0 |x - tg|)

/-- `DriverPerformanceAnalyzer.corner_entry_speed`: `Speed` of the row
whose `Distance` is closest to `apex - entry_offset`, for each apex. -/
def corner_entry_speed (t : Telemetry) (apex_distances : List ℚ) (entry_offset : ℚ := 50) :
    List (Option ℚ) :=
  apex_distances.map (fun apex =>
    match argminAbsIdx t.distance (apex - entry_offset) with
    | some i => t.speed.get? i
    | none => none)

/-- `DriverPerformanceAnalyzer.corner_exit_speed`: `Speed` of the row
whose `Distance` is closest to `apex + exit_offset`, for each apex. -/
def corner_exit_speed (t : Telemetry) (apex_distances : List ℚ) (exit_offset : ℚ := 50) :
    List (Option ℚ) :=
  apex_distances.map (fun apex =>
    match argminAbsIdx t.distance (apex + exit_offset) with
    | some i => t.speed.get? i
    | none => none)

/-- Boolean-mask row selection, `telemetry.loc[mask, col]`. -/
def maskSelect (xs : List ℚ) (mask : List Bool) : List ℚ :=
  (xs.zip mask).filterMap (fun p => if p.2 then some p.1 else none)

/-- `DriverPerformanceAnalyzer.time_lost_in_corners`: total time is
`Time.iloc[-1] - Time.iloc[0]` (raises on an empty table, modelled
`none`); straight time is `loc[straight_mask, 'Time'].diff().sum()`
(the sum of differences of consecutive *selected* samples, `sum`
skipping the leading NaN of `diff`); returns
`(total - straight, straight)`. -/
def time_lost_in_corners (t : Telemetry) (straight_mask : List Bool) : Option (ℚ × ℚ) :=
  match t.time with
  | [] => none
  | x :: xs =>
      let total := (x :: xs).getLast (List.cons_ne_nil x xs) - x
      let straight := (npDiff (maskSelect t.time straight_mask)).sum
      some (total - straight, straight)

/-- `DriverPerformanceAnalyzer.steering_smoothness_index`: mean absolute
consecutive difference of `SteeringAngle` when the column exists, NaN
otherwise. -/
def steering_smoothness_index (t : Telemetry) : Option ℚ :=
  match t.steeringAngle with
  | some s => npMean ((npDiff s).map (fun d => |d|))
  | none => none

/-- `DriverPerformanceAnalyzer.gforce_efficiency`: mean of
`sqrt(GforceLat^2 + GforceLong^2)` per sample when both columns exist,
NaN otherwise (and NaN for the mean of an empty table). -/
noncomputable def gforce_efficiency (t : Telemetry) : Option ℝ :=
  match t.gforceLat, t.gforceLong with
  | some lat, some lon =>
      match List.zipWith (fun a b => Real.sqrt (((a ^ 2 + b ^ 2 : ℚ)) : ℝ)) lat lon with
      | [] => none
      | v :: vs => some ((v :: vs).sum / (v :: vs).length)
  | _, _ => none

/-- `DriverPerformanceAnalyzer.gear_shift_timing`:
`np.where(np.diff(nGear) > 0)` yields the indices `i` (the sample
*before* each strict gear increase); the code then reads `Distance[i]`
and `RPM[i]` at those indices.  numpy indexing requires the columns to
be at least as long as `nGear`; `getD`'s default is never reached on an
aligned table. -/
def gear_shift_timing (t : Telemetry) : List (ℚ × ℚ) :=
  ((List.range (t.nGear.length - 1)).filter
      (fun i => decide (t.nGear.getD (i + 1) 0 > t.nGear.getD i 0))).map
    (fun i => (t.distance.getD i 0, t.rpm.getD i 0))

/-- `DriverPerformanceAnalyzer.drs_usage_timing`: `(Distance, Time)` of
every row with `DRS > 0`. -/
def drs_usage_timing (t : Telemetry) : List (ℚ × ℚ) :=
  (t.drs.zip (t.distance.zip t.time)).filterMap
    (fun p => if p.1 > 0 then some p.2 else none)

/-- The possible return values of the engine's methods. -/
inductive MetricResult where
  | zones : List (ℕ × ℕ) → MetricResult
  | optList : List (Option ℚ) → MetricResult
  | opt : Option ℚ → MetricResult
  | optReal : Option ℝ → MetricResult
  | optPair : Option (ℚ × ℚ) → MetricResult
  | pairs : List (ℚ × ℚ) → MetricResult

/-- One method invocation on a `DriverPerformanceAnalyzer`, with its
arguments. -/
inductive MetricCall where
  | brakingZones (threshold : ℚ)
  | brakeApplicationPoints (apexes : List ℚ)
  | maxBrakePressurePerZone
  | brakeConsistency
  | trailBrakingProfile
  | throttlePickupAfterApex (apexes : List ℚ)
  | fullThrottlePercentage
  | throttleSmoothness
  | coastingTimePercentage
  | minSpeedPerCorner (apexes : List ℚ) (window : ℚ)
  | cornerEntrySpeed (apexes : List ℚ) (offset : ℚ)
  | cornerExitSpeed (apexes : List ℚ) (offset : ℚ)
  | timeLostInCorners (mask : List Bool)
  | steeringSmoothnessIndex
  | gforceEfficiency
  | gearShiftTiming
  | drsUsageTiming

/-- Execute one method call: the returned `Analyzer` is the object state
after the method body runs.  No method body contains an assignment to
`self.telemetry` or `self.laps`, and every pandas/numpy operation used
(`>`, boolean indexing, `diff`, `mean`, `corr`, `np.where`, ...)
allocates fresh objects, so the post-state is the pre-state in every
arm. -/
noncomputable def runMetric (a : Analyzer) : MetricCall → Analyzer × MetricResult
  | .brakingZones th => (a, .zones (braking_zones a.telemetry th))
  | .brakeApplicationPoints apexes => (a, .optList (brake_application_points a.telemetry apexes))
  | .maxBrakePressurePerZone => (a, .optList (max_brake_pressure_per_zone a.telemetry))
  | .brakeConsistency => (a, .optReal (brake_consistency a))
  | .trailBrakingProfile => (a, .optReal (trail_braking_profile a.telemetry))
  | .throttlePickupAfterApex apexes => (a, .optList (throttle_pickup_after_apex a.telemetry apexes))
  | .fullThrottlePercentage => (a, .opt (full_throttle_percentage a.telemetry))
  | .throttleSmoothness => (a, .opt (throttle_smoothness a.telemetry))
  | .coastingTimePercentage => (a, .opt (coasting_time_percentage a.telemetry))
  | .minSpeedPerCorner apexes w => (a, .optList (min_speed_per_corner a.telemetry apexes w))
  | .cornerEntrySpeed apexes off => (a, .optList (corner_entry_speed a.telemetry apexes off))
  | .cornerExitSpeed apexes off => (a, .optList (corner_exit_speed a.telemetry apexes off))
  | .timeLostInCorners mask => (a, .optPair (time_lost_in_corners a.telemetry mask))
  | .steeringSmoothnessIndex => (a, .opt (steering_smoothness_index a.telemetry))
  | .gforceEfficiency => (a, .optReal (gforce_efficiency a.telemetry))
  | .gearShiftTiming => (a, .pairs (gear_shift_timing a.telemetry))
  | .drsUsageTiming => (a, .pairs (drs_usage_timing a.telemetry))

/-- Modelled from the spec's words (for comparison with
`time_lost_in_corners`): the straight time as "the sum of
consecutive-sample time deltas over the samples where the mask is
true" — the delta `time[i] - time[i-1]` belongs to sample `i`. -/
def straightTimeSpec (time : List ℚ) (mask : List Bool) : ℚ :=
  (List.zipWith (fun d m => if m then d else 0) (npDiff time) mask.tail).sum

/-- Modelled from the spec's words: the corner time as the sum of
consecutive-sample time deltas over the complement of the mask. -/
def cornerTimeSpec (time : List ℚ) (mask : List Bool) : ℚ :=
  (List.zipWith (fun d m => if m then 0 else d) (npDiff time) mask.tail).sum

/-! ### Concrete example tables used by witnesses and counterexamples -/

/-- A table whose brake channel stays strictly below the threshold 10. -/
def tLowBrake : Telemetry := { brake := [0, 5, 3] }

/-- Four samples at times 0..3. -/
def tTimes : Telemetry := { time := [0, 1, 2, 3] }

/-- An analyzer with one braking zone and a two-column laps frame. -/
def aBrakeC : Analyzer :=
  { telemetry := { brake := [0, 50, 0] }, laps := some ["LapNumber", "LapTime"] }

/-- The empty telemetry table. -/
def tEmpty : Telemetry := {}

/-- A single-sample table. -/
def tOne : Telemetry := { throttle := [50] }

/-- A single upshift, with distinct distance/rpm at the two samples. -/
def tGear2 : Telemetry := { distance := [100, 200], rpm := [5000, 6000], nGear := [1, 2] }

/-- The spec's gear example `nGear = [1,1,2,2,3]`. -/
def tGear5 : Telemetry :=
  { distance := [0, 10, 20, 30, 40], rpm := [5000, 5100, 5200, 5300, 5400],
    nGear := [1, 1, 2, 2, 3] }

/-- A table lacking all three optional channels. -/
def tNoOpt : Telemetry := { brake := [0, 1] }

/-- Uniformly spaced distances, distinct speeds. -/
def tCorner : Telemetry := { distance := [0, 10, 20, 30], speed := [100, 90, 80, 70] }

/-- Throttle `[0, 100, 0]` and a row permutation `[0, 0, 100]` of it. -/
def tPerm1 : Telemetry := { throttle := [0, 100, 0] }

/-- See `tPerm1`. -/
def tPerm2 : Telemetry := { throttle := [0, 0, 100] }

/-- Two samples, no brake or throttle activity. -/
def tQuiet : Telemetry :=
  { distance := [0, 10], brake := [0, 0], throttle := [0, 0], speed := [100, 90] }

/-! ## Lemmas about the braking-zone scan -/

theorem covers_nil (j : ℕ) : ¬ covers [] j := by simp [covers]

theorem covers_cons {z : ℕ × ℕ} {zs : List (ℕ × ℕ)} {j : ℕ} :
    covers (z :: zs) j ↔ (z.1 ≤ j ∧ j ≤ z.2) ∨ covers zs j := by
  simp [covers, List.mem_cons, or_and_right, exists_or]

/-- Complete characterization of which indices the zones emitted by the
scan cover: the indices of the still-open zone below `i`, plus every
index `i + k` at which the remaining suffix is above threshold. -/
theorem zonesFrom_covers (bs : List Bool) (i : ℕ) (st : Option ℕ)
    (h : ∀ s, st = some s → s < i) (j : ℕ) :
    covers (zonesFrom st i bs) j ↔
      ((∃ s, st = some s ∧ s ≤ j ∧ j < i) ∨ ∃ k, j = i + k ∧ bs.get? k = some true) := by
  induction bs generalizing i st with
  | nil =>
    cases st with
    | none => simp [zonesFrom, covers]
    | some s =>
      have hs : s < i := h s rfl
      simp only [zonesFrom, covers, List.mem_singleton, List.get?_nil]
      constructor
      · rintro ⟨z, rfl, h1, h2⟩
        exact Or.inl ⟨s, rfl, h1, by omega⟩
      · rintro (⟨s', hs', h1, h2⟩ | ⟨k, _, hk⟩)
        · cases hs'
          exact ⟨(s, i - 1), rfl, h1, by omega⟩
        · cases hk
  | cons b bs ih =>
    cases st with
    | none =>
      cases b with
      | false =>
        have e : zonesFrom none i (false :: bs) = zonesFrom none (i + 1) bs := rfl
        rw [e, ih (i + 1) none (by simp)]
        constructor
        · rintro (⟨s, hs, _⟩ | ⟨k, rfl, hk⟩)
          · cases hs
          · exact Or.inr ⟨k + 1, by omega, by simpa using hk⟩
        · rintro (⟨s, hs, _⟩ | ⟨k, rfl, hk⟩)
          · cases hs
          · match k, hk with
            | 0, hk => simp at hk
            | k + 1, hk => exact Or.inr ⟨k, by omega, by simpa using hk⟩
      | true =>
        have e : zonesFrom none i (true :: bs) = zonesFrom (some i) (i + 1) bs := rfl
        rw [e, ih (i + 1) (some i) (by rintro s ⟨rfl⟩; omega)]
        constructor
        · rintro (⟨s, hs, h1, h2⟩ | ⟨k, rfl, hk⟩)
          · cases hs
            exact Or.inr ⟨0, by omega, by simp⟩
          · exact Or.inr ⟨k + 1, by omega, by simpa using hk⟩
        · rintro (⟨s, hs, _⟩ | ⟨k, rfl, hk⟩)
          · cases hs
          · match k, hk with
            | 0, hk => exact Or.inl ⟨i, rfl, by omega, by omega⟩
            | k + 1, hk => exact Or.inr ⟨k, by omega, by simpa using hk⟩
    | some s =>
      have hs : s < i := h s rfl
      cases b with
      | false =>
        have e : zonesFrom (some s) i (false :: bs) =
            (s, i - 1) :: zonesFrom none (i + 1) bs := rfl
        rw [e, covers_cons, ih (i + 1) none (by simp)]
        constructor
        · rintro (⟨h1, h2⟩ | (⟨s', hs', _⟩ | ⟨k, rfl, hk⟩))
          · exact Or.inl ⟨s, rfl, h1, by omega⟩
          · cases hs'
          · exact Or.inr ⟨k + 1, by omega, by simpa using hk⟩
        · rintro (⟨s', hs', h1, h2⟩ | ⟨k, rfl, hk⟩)
          · cases hs'
            exact Or.inl ⟨h1, by omega⟩
          · match k, hk with
            | 0, hk => simp at hk
            | k + 1, hk => exact Or.inr (Or.inr ⟨k, by omega, by simpa using hk⟩)
      | true =>
        have e : zonesFrom (some s) i (true :: bs) = zonesFrom (some s) (i + 1) bs := rfl
        rw [e, ih (i + 1) (some s) (by rintro s' ⟨rfl⟩; omega)]
        constructor
        · rintro (⟨s', hs', h1, h2⟩ | ⟨k, rfl, hk⟩)
          · cases hs'
            rcases Nat.lt_or_ge j i with hj | hj
            · exact Or.inl ⟨s, rfl, h1, hj⟩
            · have : j = i := by omega
              exact Or.inr ⟨0, by omega, by simp⟩
          · exact Or.inr ⟨k + 1, by omega, by simpa using hk⟩
        · rintro (⟨s', hs', h1, h2⟩ | ⟨k, rfl, hk⟩)
          · cases hs'
            exact Or.inl ⟨s, rfl, h1, by omega⟩
          · match k, hk with
            | 0, hk => exact Or.inl ⟨s, rfl, by omega, by omega⟩
            | k + 1, hk => exact Or.inr ⟨k, by omega, by simpa using hk⟩

/-- Every zone the scan emits is a well-formed interval bounded by the
zone of the current open state (if any) below and the end of the scanned
suffix above. -/
theorem zonesFrom_bounds (bs : List Bool) (i : ℕ) (st : Option ℕ)
    (h : ∀ s, st = some s → s < i) :
    ∀ z ∈ zonesFrom st i bs,
      st.getD i ≤ z.1 ∧ z.1 ≤ z.2 ∧ z.2 < i + bs.length := by
  induction bs generalizing i st with
  | nil =>
    cases st with
    | none => simp [zonesFrom]
    | some s =>
      have hs : s < i := h s rfl
      simp only [zonesFrom, List.mem_singleton]
      rintro z rfl
      exact ⟨le_refl s, by omega, by simp; omega⟩
  | cons b bs ih =>
    cases st with
    | none =>
      cases b with
      | false =>
        have e : zonesFrom none i (false :: bs) = zonesFrom none (i + 1) bs := rfl
        rw [e]
        intro z hz
        have := ih (i + 1) none (by simp) z hz
        simp only [List.length_cons, Option.getD_some, Option.getD_none] at this ⊢
        omega
      | true =>
        have e : zonesFrom none i (true :: bs) = zonesFrom (some i) (i + 1) bs := rfl
        rw [e]
        intro z hz
        have := ih (i + 1) (some i) (by rintro s ⟨rfl⟩; omega) z hz
        simp only [List.length_cons, Option.getD_some, Option.getD_none] at this ⊢
        omega
    | some s =>
      have hs : s < i := h s rfl
      cases b with
      | false =>
        have e : zonesFrom (some s) i (false :: bs) =
            (s, i - 1) :: zonesFrom none (i + 1) bs := rfl
        rw [e]
        intro z hz
        rcases List.mem_cons.mp hz with rfl | hz'
        · exact ⟨le_refl s, by omega, by simp; omega⟩
        · have := ih (i + 1) none (by simp) z hz'
          simp only [List.length_cons, Option.getD_some, Option.getD_none] at this ⊢
          omega
      | true =>
        have e : zonesFrom (some s) i (true :: bs) = zonesFrom (some s) (i + 1) bs := rfl
        rw [e]
        intro z hz
        have := ih (i + 1) (some s) (by rintro s' ⟨rfl⟩; omega) z hz
        simp only [List.length_cons, Option.getD_some, Option.getD_none] at this ⊢
        omega

/-- The scan emits zones whose consecutive intervals are separated:
each zone ends strictly before the next begins. -/
theorem zonesFrom_chain (bs : List Bool) (i : ℕ) (st : Option ℕ)
    (h : ∀ s, st = some s → s < i) :
    List.Chain' (fun z w : ℕ × ℕ => z.2 < w.1) (zonesFrom st i bs) := by
  induction bs generalizing i st with
  | nil =>
    cases st with
    | none => simp [zonesFrom]
    | some s => simp [zonesFrom]
  | cons b bs ih =>
    cases st with
    | none =>
      cases b with
      | false =>
        have e : zonesFrom none i (false :: bs) = zonesFrom none (i + 1) bs := rfl
        rw [e]; exact ih (i + 1) none (by simp)
      | true =>
        have e : zonesFrom none i (true :: bs) = zonesFrom (some i) (i + 1) bs := rfl
        rw [e]; exact ih (i + 1) (some i) (by rintro s ⟨rfl⟩; omega)
    | some s =>
      have hs : s < i := h s rfl
      cases b with
      | false =>
        have e : zonesFrom (some s) i (false :: bs) =
            (s, i - 1) :: zonesFrom none (i + 1) bs := rfl
        rw [e]
        refine List.chain'_cons'.mpr ⟨?_, ih (i + 1) none (by simp)⟩
        intro w hw
        have hwm : w ∈ zonesFrom none (i + 1) bs := List.mem_of_mem_head? hw
        have := zonesFrom_bounds bs (i + 1) none (by simp) w hwm
        simp only [Option.getD_none] at this
        omega
      | true =>
        have e : zonesFrom (some s) i (true :: bs) = zonesFrom (some s) (i + 1) bs := rfl
        rw [e]; exact ih (i + 1) (some s) (by rintro s' ⟨rfl⟩; omega)

/-- Separated adjacent well-formed intervals are pairwise separated. -/
theorem pairwise_of_chain_sep :
    ∀ zs : List (ℕ × ℕ), (∀ z ∈ zs, z.1 ≤ z.2) →
      List.Chain' (fun z w : ℕ × ℕ => z.2 < w.1) zs →
      zs.Pairwise (fun z w => z.2 < w.1)
  | [], _, _ => List.Pairwise.nil
  | a :: l, hv, hc => by
    have hl := pairwise_of_chain_sep l (fun z hz => hv z (List.mem_cons_of_mem a hz)) hc.tail
    refine List.pairwise_cons.mpr ⟨?_, hl⟩
    intro b hb
    cases l with
    | nil => cases hb
    | cons c l' =>
      have h1 : a.2 < c.1 := (List.chain'_cons.mp hc).1
      rcases List.mem_cons.mp hb with rfl | hb'
      · exact h1
      · have h2 : c.2 < b.1 := (List.pairwise_cons.mp hl).1 b hb'
        have h3 : c.1 ≤ c.2 := hv c (List.mem_cons_of_mem a (List.mem_cons_self c l'))
        omega

/-- Claim C1: braking zones are well-formed intervals, pairwise separated (in
particular non-overlapping and sorted by start index), their covered
indices are exactly the indices where `Brake` exceeds the threshold, and
a table whose brake channel stays strictly below the threshold yields no
zones. -/
theorem braking_zones_spec (t : Telemetry) (th : ℚ) :
    (∀ z ∈ braking_zones t th, z.1 ≤ z.2) ∧
    (braking_zones t th).Pairwise (fun z w => z.2 < w.1) ∧
    (∀ j, covers (braking_zones t th) j ↔ ∃ x, t.brake.get? j = some x ∧ x > th) ∧
    ((∀ x ∈ t.brake, x < th) → braking_zones t th = []) := by
  have hb : ∀ z ∈ braking_zones t th, z.1 ≤ z.2 := by
    intro z hz
    exact (zonesFrom_bounds _ 0 none (by simp) z hz).2.1
  have hcov : ∀ j, covers (braking_zones t th) j ↔ ∃ x, t.brake.get? j = some x ∧ x > th := by
    intro j
    rw [braking_zones, zonesFrom_covers _ 0 none (by simp) j]
    simp [List.get?_map, Option.map_eq_some']
  refine ⟨hb, ?_, hcov, ?_⟩
  · exact pairwise_of_chain_sep _ hb (zonesFrom_chain _ 0 none (by simp))
  · intro hlow
    cases hz : braking_zones t th with
    | nil => rfl
    | cons z zs =>
      exfalso
      have hmem : z ∈ braking_zones t th := by rw [hz]; exact List.mem_cons_self z zs
      have hcz : covers (braking_zones t th) z.1 := ⟨z, hmem, le_refl _, hb z hmem⟩
      obtain ⟨x, hx, hxth⟩ := (hcov z.1).mp hcz
      have : x ∈ t.brake := List.get?_mem hx
      exact absurd (hlow x this) (not_lt.mpr hxth.le)

/-- Witness for C1 at a concrete table whose brake stays below 10. -/
theorem braking_zones_spec_witness : braking_zones tLowBrake 10 = [] :=
  (braking_zones_spec tLowBrake 10).2.2.2 (by decide)

/-- Claim C7: every method of the engine leaves the telemetry table and the
laps table of the analyzer unchanged (the post-state equals the
pre-state). -/
theorem metric_engine_pure (a : Analyzer) (c : MetricCall) :
    (runMetric a c).1.telemetry = a.telemetry ∧ (runMetric a c).1.laps = a.laps ∧
    (runMetric a c).1 = a := by
  cases c <;> exact ⟨rfl, rfl, rfl⟩

/-- Claim C6: a table without `SteeringAngle` makes `trail_braking_profile`
and `steering_smoothness_index` return the NaN sentinel (not an
exception), and a table without `GforceLat` or `GforceLong` makes
`gforce_efficiency` return the sentinel. -/
theorem optional_channel_sentinel (t : Telemetry) :
    (t.steeringAngle = none →
      trail_braking_profile t = none ∧ steering_smoothness_index t = none) ∧
    ((t.gforceLat = none ∨ t.gforceLong = none) → gforce_efficiency t = none) := by
  constructor
  · intro h
    constructor
    · simp only [trail_braking_profile, h]
    · simp only [steering_smoothness_index, h]
  · rintro (h | h)
    · cases hl : t.gforceLong <;> simp only [gforce_efficiency, h, hl]
    · cases hl : t.gforceLat <;> simp only [gforce_efficiency, h, hl]

/-- Witness for C6 at a table with no optional channels. -/
theorem optional_channel_sentinel_witness :
    trail_braking_profile tNoOpt = none ∧ steering_smoothness_index tNoOpt = none ∧
    gforce_efficiency tNoOpt = none :=
  ⟨((optional_channel_sentinel tNoOpt).1 rfl).1,
   ((optional_channel_sentinel tNoOpt).1 rfl).2,
   (optional_channel_sentinel tNoOpt).2 (Or.inl rfl)⟩

/-- Counterexample to C4: on an empty table `full_throttle_percentage`
returns the NaN sentinel itself (the mean of an empty boolean series),
and on a single-sample table `throttle_smoothness` likewise returns the
sentinel — neither raises a failure distinguishable from the
sentinel. -/
theorem empty_table_returns_sentinel_cex :
    full_throttle_percentage tEmpty = none ∧ throttle_smoothness tOne = none :=
  ⟨rfl, rfl⟩

/-- Claim C4 as amended: on an empty table `full_throttle_percentage`
degrades to the NaN sentinel, and `throttle_smoothness` degrades to the
sentinel whenever the table has fewer than 2 samples. -/
theorem empty_table_sentinel (t u : Telemetry) (h : t.throttle = [])
    (h2 : u.throttle.length < 2) :
    full_throttle_percentage t = none ∧ throttle_smoothness u = none := by
  constructor
  · simp only [full_throttle_percentage, h]
  · have hd : npDiff u.throttle = [] := by
      cases hu : u.throttle with
      | nil => rfl
      | cons a l =>
        cases hl : l with
        | nil => rfl
        | cons b l2 => exfalso; rw [hu, hl] at h2; simp at h2; omega
    simp only [throttle_smoothness, hd, List.map_nil, npMean]

/-- Witness for the amended C4. -/
theorem empty_table_sentinel_witness :
    full_throttle_percentage tEmpty = none ∧ throttle_smoothness tOne = none :=
  empty_table_sentinel tEmpty tOne rfl (by decide)

/-- Claim C9: `full_throttle_percentage` is invariant under any permutation of
the samples, while `throttle_smoothness` is order-dependent: a table and
a permutation of it on which it changes exist. -/
theorem throttle_permutation_spec :
    (∀ t u : Telemetry, t.throttle ≠ [] → t.throttle.Perm u.throttle →
      full_throttle_percentage t = full_throttle_percentage u) ∧
    (∃ t u : Telemetry, t.throttle.Perm u.throttle ∧
      throttle_smoothness t ≠ throttle_smoothness u) := by
  constructor
  · intro t u ht hp
    rcases et : t.throttle with _ | ⟨x, xs⟩
    · exact absurd et ht
    · rcases eu : u.throttle with _ | ⟨y, ys⟩
      · rw [et, eu] at hp
        exact absurd hp.eq_nil (List.cons_ne_nil x xs)
      · rw [et, eu] at hp
        simp only [full_throttle_percentage, et, eu]
        rw [hp.countP_eq, hp.length_eq]
  · refine ⟨tPerm1, tPerm2, by decide, ?_⟩
    have e1 : throttle_smoothness tPerm1 = some 100 := by
      norm_num [throttle_smoothness, tPerm1, npDiff, npMean]
    have e2 : throttle_smoothness tPerm2 = some 50 := by
      norm_num [throttle_smoothness, tPerm2, npDiff, npMean]
    rw [e1, e2]
    simp only [ne_eq, Option.some.injEq]
    norm_num

/-- Witness for C9's universally quantified half. -/
theorem throttle_permutation_spec_witness :
    full_throttle_percentage tPerm1 = full_throttle_percentage tPerm2 :=
  throttle_permutation_spec.1 tPerm1 tPerm2 (by decide) (by decide)

/-- Counterexample to C5: on `nGear = [1, 2]` with
`Distance = [100, 200]`, `RPM = [5000, 6000]` the single upshift is
reported with the distance and rpm of the sample *before* the increase,
`(100, 5000)`, not the claimed values `(200, 6000)` at the index where
the gear increases. -/
theorem gear_shift_timing_cex :
    gear_shift_timing tGear2 = [(100, 5000)] ∧
    (((100 : ℚ), (5000 : ℚ)) : ℚ × ℚ) ≠ ((200 : ℚ), (6000 : ℚ)) := by
  exact ⟨by decide, by decide⟩

/-- Claim C5 as amended: `gear_shift_timing` reports exactly the strict gear
increases, with distance and rpm taken at the sample immediately
*before* each increase; on the spec's `nGear = [1,1,2,2,3]` example it
returns exactly two entries. -/
theorem gear_shift_timing_amended (t : Telemetry) :
    (∀ p : ℚ × ℚ, p ∈ gear_shift_timing t ↔
      ∃ i, i + 1 < t.nGear.length ∧ t.nGear.getD (i + 1) 0 > t.nGear.getD i 0 ∧
        p = (t.distance.getD i 0, t.rpm.getD i 0)) ∧
    gear_shift_timing tGear5 = [(10, 5100), (30, 5300)] := by
  constructor
  · intro p
    simp only [gear_shift_timing, List.mem_map, List.mem_filter, List.mem_range,
      decide_eq_true_eq]
    constructor
    · rintro ⟨i, ⟨hi, hgt⟩, rfl⟩
      exact ⟨i, by omega, hgt, rfl⟩
    · rintro ⟨i, hi, hgt, rfl⟩
      exact ⟨i, ⟨by omega, hgt⟩, rfl⟩
  · decide

/-- Witness for the amended C5. -/
theorem gear_shift_timing_amended_witness :
    (((10 : ℚ), (5100 : ℚ)) : ℚ × ℚ) ∈ gear_shift_timing tGear5 :=
  ((gear_shift_timing_amended tGear5).1 _).mpr ⟨1, by decide, by decide, by decide⟩

/-- Summing consecutive differences telescopes to last minus first. -/
theorem npDiff_sum_cons (x : ℚ) (xs : List ℚ) :
    (npDiff (x :: xs)).sum = (x :: xs).getLast (List.cons_ne_nil x xs) - x := by
  induction xs generalizing x with
  | nil => simp [npDiff]
  | cons y ys ih =>
    have e : npDiff (x :: y :: ys) = (y - x) :: npDiff (y :: ys) := rfl
    rw [e, List.sum_cons, ih y, List.getLast_cons (List.cons_ne_nil y ys)]
    ring

/-- Counterexample to C2: on times `[0,1,2,3]` with mask
`[true,false,false,true]` the code returns `(corner, straight) = (0, 3)`
— the straight time telescopes over the *selected* subsequence — while
the claimed per-sample-delta sums give straight time 1 and corner time
2. -/
theorem time_lost_in_corners_cex :
    time_lost_in_corners tTimes [true, false, false, true] = some (0, 3) ∧
    straightTimeSpec tTimes.time [true, false, false, true] = 1 ∧
    cornerTimeSpec tTimes.time [true, false, false, true] = 2 ∧
    (((0 : ℚ), (3 : ℚ)) : ℚ × ℚ) ≠ ((2 : ℚ), (1 : ℚ)) := by
  refine ⟨?_, ?_, ?_, by decide⟩
  · norm_num [time_lost_in_corners, tTimes, maskSelect, npDiff, List.filterMap_cons]
  · norm_num [straightTimeSpec, tTimes, npDiff]
  · norm_num [cornerTimeSpec, tTimes, npDiff]

/-- Claim C2 as amended: on a non-empty table the pair partitions the total
elapsed time (`corner + straight = last - first`), but the straight
component is the *telescoped* sum of differences of consecutive
mask-selected samples — equal to last-selected minus first-selected —
not the sum of the table's per-sample deltas at mask-true samples. -/
theorem time_lost_in_corners_amended (t : Telemetry) (mask : List Bool) (x y : ℚ)
    (hx : t.time.head? = some x) (hy : t.time.getLast? = some y) :
    time_lost_in_corners t mask =
      some (y - x - (npDiff (maskSelect t.time mask)).sum,
            (npDiff (maskSelect t.time mask)).sum) ∧
    ∀ u v : ℚ, (maskSelect t.time mask).head? = some u →
      (maskSelect t.time mask).getLast? = some v →
      (npDiff (maskSelect t.time mask)).sum = v - u := by
  constructor
  · cases ht : t.time with
    | nil => rw [ht] at hx; cases hx
    | cons a l =>
      rw [ht] at hx hy
      have hax : a = x := by simpa using hx
      subst hax
      have hgl : (a :: l).getLast (List.cons_ne_nil a l) = y := by
        rw [List.getLast?_eq_getLast (a :: l) (List.cons_ne_nil a l)] at hy
        simpa using hy
      simp only [time_lost_in_corners, ht, hgl]
  · intro u v hu hv
    cases hm : maskSelect t.time mask with
    | nil => rw [hm] at hu; cases hu
    | cons a l =>
      rw [hm] at hu hv
      have hau : a = u := by simpa using hu
      have hglv : (a :: l).getLast (List.cons_ne_nil a l) = v := by
        rw [List.getLast?_eq_getLast (a :: l) (List.cons_ne_nil a l)] at hv
        simpa using hv
      rw [npDiff_sum_cons, hglv, hau]

/-- Witness for the amended C2. -/
theorem time_lost_in_corners_amended_witness :
    (npDiff (maskSelect tTimes.time [true, false, false, true])).sum = 3 - 0 :=
  (time_lost_in_corners_amended tTimes [true, false, false, true] 0 3 rfl rfl).2 0 3 rfl rfl

/-! ## Lemmas about the nearest-sample lookup -/

/-- If no remaining value beats the running best, the scan keeps the
running best index. -/
theorem argminAbsAux_keep (ys : List ℚ) (tg : ℚ) :
    ∀ (i bi : ℕ) (bv : ℚ), (∀ k, k < ys.length → bv ≤ |ys.getD k 0 - tg|) →
      argminAbsAux ys tg i bi bv = bi := by
  induction ys with
  | nil => intro i bi bv _; rfl
  | cons y rest ih =>
    intro i bi bv h
    have h0 : bv ≤ |y - tg| := by simpa using h 0 (by simp)
    have e : argminAbsAux (y :: rest) tg i bi bv =
        if |y - tg| < bv then argminAbsAux rest tg (i + 1) i |y - tg|
        else argminAbsAux rest tg (i + 1) bi bv := rfl
    rw [e, if_neg (not_lt.mpr h0)]
    refine ih (i + 1) bi bv (fun k hk => ?_)
    have := h (k + 1) (by simp; omega)
    simpa using this

/-- If position `j` is the strict minimizer of `|· - tg|` among the
remaining values and beats the running best, the scan returns `i + j`. -/
theorem argminAbsAux_strict (ys : List ℚ) (tg : ℚ) :
    ∀ (j i bi : ℕ) (bv : ℚ), j < ys.length →
      (∀ k, k < ys.length → k ≠ j → |ys.getD j 0 - tg| < |ys.getD k 0 - tg|) →
      |ys.getD j 0 - tg| < bv →
      argminAbsAux ys tg i bi bv = i + j := by
  induction ys with
  | nil => intro j i bi bv hj; simp at hj
  | cons y rest ih =>
    intro j i bi bv hj huniq hbv
    have e : argminAbsAux (y :: rest) tg i bi bv =
        if |y - tg| < bv then argminAbsAux rest tg (i + 1) i |y - tg|
        else argminAbsAux rest tg (i + 1) bi bv := rfl
    cases j with
    | zero =>
      have hy : |y - tg| < bv := by simpa using hbv
      have keep : argminAbsAux rest tg (i + 1) i (|y - tg|) = i := by
        refine argminAbsAux_keep rest tg (i + 1) i (|y - tg|) (fun k hk => ?_)
        have := huniq (k + 1) (by simp; omega) (by omega)
        simp only [List.getD_cons_zero, List.getD_cons_succ] at this ⊢
        exact this.le
      rw [e, if_pos hy, keep]
      omega
    | succ j' =>
      have hj' : j' < rest.length := by simpa using hj
      have h0 : |rest.getD j' 0 - tg| < |y - tg| := by
        have := huniq 0 (by simp) (by omega)
        simpa using this
      have huniq' : ∀ k, k < rest.length → k ≠ j' →
          |rest.getD j' 0 - tg| < |rest.getD k 0 - tg| := by
        intro k hk hkj
        have := huniq (k + 1) (by simp; omega) (by omega)
        simpa using this
      by_cases hc : |y - tg| < bv
      · rw [e, if_pos hc, ih j' (i + 1) i (|y - tg|) hj' huniq' h0]
        omega
      · rw [e, if_neg hc, ih j' (i + 1) bi bv hj' huniq' (by simpa using hbv)]
        omega

/-- When the minimizer of `|· - tg|` is unique, the `argsort()[:1]`
lookup returns exactly that index. -/
theorem argminAbsIdx_unique (xs : List ℚ) (tg : ℚ) (j : ℕ) (hj : j < xs.length)
    (huniq : ∀ k, k < xs.length → k ≠ j → |xs.getD j 0 - tg| < |xs.getD k 0 - tg|) :
    argminAbsIdx xs tg = some j := by
  cases xs with
  | nil => simp at hj
  | cons x rest =>
    have e : argminAbsIdx (x :: rest) tg = some (argminAbsAux rest tg 1 0 |x - tg|) := rfl
    rw [e]
    cases j with
    | zero =>
      congr 1
      refine argminAbsAux_keep rest tg 1 0 (|x - tg|) (fun k hk => ?_)
      have := huniq (k + 1) (by simp; omega) (by omega)
      simp only [List.getD_cons_zero, List.getD_cons_succ] at this ⊢
      exact this.le
    | succ j' =>
      congr 1
      have h0 : |rest.getD j' 0 - tg| < |x - tg| := by
        have := huniq 0 (by simp) (by omega)
        simpa using this
      have huniq' : ∀ k, k < rest.length → k ≠ j' →
          |rest.getD j' 0 - tg| < |rest.getD k 0 - tg| := by
        intro k hk hkj
        have := huniq (k + 1) (by simp; omega) (by omega)
        simpa using this
      rw [argminAbsAux_strict rest tg j' 1 0 (|x - tg|) (by simpa using hj) huniq' h0]
      omega

/-- The per-apex lookup body, resolved at the unique minimizer. -/
theorem corner_lookup_eq (t : Telemetry) (tg : ℚ) (j : ℕ) (hj : j < t.distance.length)
    (huniq : ∀ k, k < t.distance.length → k ≠ j →
      |t.distance.getD j 0 - tg| < |t.distance.getD k 0 - tg|) :
    (match argminAbsIdx t.distance tg with
     | some i => t.speed.get? i
     | none => none) = t.speed.get? j := by
  rw [argminAbsIdx_unique t.distance tg j hj huniq]

/-- Claim C8: whenever the sample minimizing the absolute distance difference
to `apex - offset` (resp. `apex + offset`) is unique,
`corner_entry_speed` (resp. `corner_exit_speed`) returns the `Speed` of
that sample. -/
theorem corner_speed_spec :
    (∀ (t : Telemetry) (apexes : List ℚ) (offset : ℚ) (i j : ℕ),
      i < apexes.length → j < t.distance.length →
      (∀ k, k < t.distance.length → k ≠ j →
        |t.distance.getD j 0 - (apexes.getD i 0 - offset)| <
          |t.distance.getD k 0 - (apexes.getD i 0 - offset)|) →
      (corner_entry_speed t apexes offset).get? i = some (t.speed.get? j)) ∧
    (∀ (t : Telemetry) (apexes : List ℚ) (offset : ℚ) (i j : ℕ),
      i < apexes.length → j < t.distance.length →
      (∀ k, k < t.distance.length → k ≠ j →
        |t.distance.getD j 0 - (apexes.getD i 0 + offset)| <
          |t.distance.getD k 0 - (apexes.getD i 0 + offset)|) →
      (corner_exit_speed t apexes offset).get? i = some (t.speed.get? j)) := by
  constructor
  · intro t apexes offset i j hi hj huniq
    have ha : apexes.get? i = some (apexes.get ⟨i, hi⟩) := List.get?_eq_get hi
    have hgd : apexes.getD i 0 = apexes.get ⟨i, hi⟩ := by
      rw [List.getD_eq_get? apexes i 0, ha]; rfl
    rw [hgd] at huniq
    simp only [corner_entry_speed, List.get?_map, ha, Option.map_some', Option.some.injEq]
    exact corner_lookup_eq t (apexes.get ⟨i, hi⟩ - offset) j hj huniq
  · intro t apexes offset i j hi hj huniq
    have ha : apexes.get? i = some (apexes.get ⟨i, hi⟩) := List.get?_eq_get hi
    have hgd : apexes.getD i 0 = apexes.get ⟨i, hi⟩ := by
      rw [List.getD_eq_get? apexes i 0, ha]; rfl
    rw [hgd] at huniq
    simp only [corner_exit_speed, List.get?_map, ha, Option.map_some', Option.some.injEq]
    exact corner_lookup_eq t (apexes.get ⟨i, hi⟩ + offset) j hj huniq

/-- Witness for C8 on a uniformly spaced table: apex 58, offset 50, so
the entry target is 8 (nearest sample is at 10) and the exit target is
108 (nearest sample is at 30). -/
theorem corner_speed_spec_witness :
    (corner_entry_speed tCorner [58] 50).get? 0 = some (tCorner.speed.get? 1) ∧
    (corner_exit_speed tCorner [58] 50).get? 0 = some (tCorner.speed.get? 3) := by
  constructor
  · refine corner_speed_spec.1 tCorner [58] 50 0 1 (by decide) (by decide) ?_
    intro k hk hkj
    have hk4 : k < 4 := by simpa [tCorner] using hk
    interval_cases k <;> norm_num [tCorner] at hkj ⊢
  · refine corner_speed_spec.2 tCorner [58] 50 0 3 (by decide) (by decide) ?_
    intro k hk hkj
    have hk4 : k < 4 := by simpa [tCorner] using hk
    interval_cases k <;> norm_num [tCorner] at hkj ⊢

/-- Claim C10: the three per-apex metrics each return one entry per apex, in
order, and an apex with no qualifying samples yields the NaN sentinel at
its position instead of being dropped or raising. -/
theorem per_apex_lists (t : Telemetry) (apexes : List ℚ) :
    (brake_application_points t apexes).length = apexes.length ∧
    (throttle_pickup_after_apex t apexes).length = apexes.length ∧
    (min_speed_per_corner t apexes).length = apexes.length ∧
    ∀ i, i < apexes.length →
      ((∀ p ∈ t.distance.zip t.brake, ¬(p.1 < apexes.getD i 0 ∧ p.2 > 10)) →
        (brake_application_points t apexes).get? i = some none) ∧
      ((∀ p ∈ t.distance.zip t.throttle, ¬(p.1 > apexes.getD i 0 ∧ p.2 > 10)) →
        (throttle_pickup_after_apex t apexes).get? i = some none) ∧
      ((∀ p ∈ t.distance.zip t.speed,
          ¬(p.1 > apexes.getD i 0 - 10 ∧ p.1 < apexes.getD i 0 + 10)) →
        (min_speed_per_corner t apexes).get? i = some none) := by
  refine ⟨by simp [brake_application_points], by simp [throttle_pickup_after_apex],
    by simp [min_speed_per_corner], ?_⟩
  intro i hi
  have ha : apexes.get? i = some (apexes.get ⟨i, hi⟩) := List.get?_eq_get hi
  have hgd : apexes.getD i 0 = apexes.get ⟨i, hi⟩ := by
    rw [List.getD_eq_get? apexes i 0, ha]; rfl
  refine ⟨?_, ?_, ?_⟩
  · intro hno
    rw [hgd] at hno
    have hfil : (t.distance.zip t.brake).filter
        (fun p => decide (p.1 < apexes.get ⟨i, hi⟩) && decide (p.2 > 10)) = [] := by
      refine List.filter_eq_nil.mpr (fun p hp => ?_)
      simp only [Bool.and_eq_true, decide_eq_true_eq, not_and]
      intro h1 h2
      exact hno p hp ⟨h1, h2⟩
    simp only [brake_application_points, List.get?_map, ha, Option.map_some', hfil,
      List.getLast?_nil]
  · intro hno
    rw [hgd] at hno
    have hfil : (t.distance.zip t.throttle).filter
        (fun p => decide (p.1 > apexes.get ⟨i, hi⟩) && decide (p.2 > 10)) = [] := by
      refine List.filter_eq_nil.mpr (fun p hp => ?_)
      simp only [Bool.and_eq_true, decide_eq_true_eq, not_and]
      intro h1 h2
      exact hno p hp ⟨h1, h2⟩
    simp only [throttle_pickup_after_apex, List.get?_map, ha, Option.map_some', hfil,
      List.head?_nil]
  · intro hno
    rw [hgd] at hno
    have hfil : (t.distance.zip t.speed).filter
        (fun p => decide (p.1 > apexes.get ⟨i, hi⟩ - 10) &&
          decide (p.1 < apexes.get ⟨i, hi⟩ + 10)) = [] := by
      refine List.filter_eq_nil.mpr (fun p hp => ?_)
      simp only [Bool.and_eq_true, decide_eq_true_eq, not_and]
      intro h1 h2
      exact hno p hp ⟨h1, h2⟩
    simp only [min_speed_per_corner, List.get?_map, ha, Option.map_some', hfil,
      List.map_nil, seriesMin]

/-- Witness for C10: two apexes, the first with no braking/throttle
activity before/after it, the second with no samples in its speed
window. -/
theorem per_apex_lists_witness :
    (brake_application_points tQuiet [5, 1000]).length = 2 ∧
    (brake_application_points tQuiet [5, 1000]).get? 0 = some none ∧
    (throttle_pickup_after_apex tQuiet [5, 1000]).get? 0 = some none ∧
    (min_speed_per_corner tQuiet [5, 1000]).get? 1 = some none := by
  refine ⟨(per_apex_lists tQuiet [5, 1000]).1.trans rfl,
    ((per_apex_lists tQuiet [5, 1000]).2.2.2 0 (by decide)).1 (by decide),
    ((per_apex_lists tQuiet [5, 1000]).2.2.2 0 (by decide)).2.1 (by decide),
    ((per_apex_lists tQuiet [5, 1000]).2.2.2 1 (by decide)).2.2 ?_⟩
  intro p hp
  fin_cases hp <;> norm_num

/-! ## Lemmas about brake consistency -/

theorem reduceOption_replicate_some (q : ℚ) :
    ∀ n, (List.replicate n (some q)).reduceOption = List.replicate n q
  | 0 => rfl
  | n + 1 => by
      simp [List.replicate_succ, reduceOption_replicate_some q n]

/-- `np.std` of a non-empty constant list is exactly 0. -/
theorem npStd_const (q : ℚ) (n : ℕ) (hn : n ≠ 0) :
    npStd (List.replicate n (some q)) = some 0 := by
  have hcond : ¬(List.replicate n (some q) = [] ∨
      (none : Option ℚ) ∈ List.replicate n (some q)) := by
    simp [List.mem_replicate, hn]
  have hn' : (n : ℚ) ≠ 0 := Nat.cast_ne_zero.mpr hn
  unfold npStd
  rw [if_neg hcond]
  simp only [reduceOption_replicate_some, List.sum_replicate, List.length_replicate,
    List.map_replicate]
  have e2 : q - ((n • q : ℚ)) / (n : ℚ) = 0 := by
    rw [nsmul_eq_mul, mul_div_cancel_left₀ q hn', sub_self]
  rw [e2]
  norm_num [Real.sqrt_zero]

/-- Claim C3 (the code bug, proved as what the code actually does): whenever a
laps frame is present (with at least one column) and the telemetry has
at least one braking zone, `brake_consistency` returns exactly 0 — the
computation iterates `self.laps` but recomputes the *same* telemetry's
per-zone maxima each time, so the "cross-lap" deviation is the standard
deviation of identical values, never reflecting the laps' own data; and
with a single lap it returns 0, not the NaN sentinel (NaN is returned
only when `laps` is `None`). -/
theorem brake_consistency_zero (a : Analyzer) (cols : List String)
    (hl : a.laps = some cols) (hc : cols ≠ [])
    (hm : npMeanOpt (max_brake_pressure_per_zone a.telemetry) ≠ none) :
    brake_consistency a = some 0 := by
  obtain ⟨q, hq⟩ : ∃ q, npMeanOpt (max_brake_pressure_per_zone a.telemetry) = some q :=
    Option.ne_none_iff_exists'.mp hm
  have e : brake_consistency a =
      npStd ((cols.map (fun _ => max_brake_pressure_per_zone a.telemetry)).map npMeanOpt) := by
    simp only [brake_consistency, hl]
  rw [e, List.map_map]
  have e2 : (npMeanOpt ∘ fun _ : String => max_brake_pressure_per_zone a.telemetry) =
      fun _ : String => some q := by
    funext c
    simp [hq]
  rw [e2, List.map_const' cols (some q), npStd_const q cols.length (by simpa using hc)]

/-- Witness for C3's theorem: a concrete analyzer with one braking zone
and a two-column laps frame. -/
theorem brake_consistency_zero_witness : brake_consistency aBrakeC = some 0 :=
  brake_consistency_zero aBrakeC ["LapNumber", "LapTime"] rfl (by decide) (by decide)

end F1Metrics
